import Mathlib

/-!
Shallow embedding of `src/core_editor/edit_stack.rs` (the `EditStack<T>`
undo/redo history container) and proofs of its specified properties.

A Rust `Vec<T>` is modelled as a `List α` ordered from oldest (front) to
most recent (back): `Vec::push` appends at the back (`l ++ [x]`) and
`Vec::pop` removes the back element (`l.getLast?` / `l.dropLast`).
The Rust methods mutate `self` and the caller's `current_state` in place;
here each operation returns the new container (and, for `undo`/`redo`,
the new current state) explicitly.
-/

/-- The `EditStack<T>` struct: two ordered sequences of snapshots. -/
structure EditStack (α : Type) where
  undo_list : List α
  redo_list : List α
deriving DecidableEq, Repr

namespace EditStack

variable {α : Type}

/-- `EditStack::new`: both sequences start empty. -/
def new : EditStack α := { undo_list := [], redo_list := [] }

/-- `EditStack::undo`: if `undo_list.pop()` yields `prev_state`, push the old
`current_state` onto `redo_list` and replace `current_state` by `prev_state`;
otherwise do nothing.  Returns the new container and new current state. -/
def undo (s : EditStack α) (current_state : α) : EditStack α × α :=
  match s.undo_list.getLast? with
  | some prev_state =>
      ({ undo_list := s.undo_list.dropLast,
         redo_list := s.redo_list ++ [current_state] }, prev_state)
  | none => (s, current_state)

/-- `EditStack::redo`: if `redo_list.pop()` yields `next_state`, push the old
`current_state` onto `undo_list` and replace `current_state` by `next_state`;
otherwise do nothing. -/
def redo (s : EditStack α) (current_state : α) : EditStack α × α :=
  match s.redo_list.getLast? with
  | some next_state =>
      ({ undo_list := s.undo_list ++ [current_state],
         redo_list := s.redo_list.dropLast }, next_state)
  | none => (s, current_state)

/-- `EditStack::insert`: push `current_state` onto `undo_list`, clear
`redo_list`. -/
def insert (s : EditStack α) (current_state : α) : EditStack α :=
  { undo_list := s.undo_list ++ [current_state], redo_list := [] }

/-- `EditStack::reset`: clear both sequences. -/
def reset (_s : EditStack α) : EditStack α :=
  { undo_list := [], redo_list := [] }

end EditStack

/-- One call a client can make on the container (used for reachability). -/
inductive Op (α : Type) where
  | undo : Op α
  | redo : Op α
  | insert : α → Op α
  | reset : Op α
deriving DecidableEq, Repr

/-- Instrumented machine state: the container, the caller-held current state,
and a ghost flag recording whether an undo that actually popped an element
has occurred since the most recent `insert` or `reset` (or since
construction). -/
def stepFlag {α : Type} (st : EditStack α × α × Bool) (op : Op α) :
    EditStack α × α × Bool :=
  match op with
  | Op.undo =>
      let r := st.1.undo st.2.1
      (r.1, r.2, if st.1.undo_list.isEmpty then st.2.2 else true)
  | Op.redo =>
      let r := st.1.redo st.2.1
      (r.1, r.2, st.2.2)
  | Op.insert v => (st.1.insert v, st.2.1, false)
  | Op.reset => (st.1.reset, st.2.1, false)

/-- Run a sequence of operations from a given instrumented state. -/
def runFlag {α : Type} (init : EditStack α × α × Bool) (ops : List (Op α)) :
    EditStack α × α × Bool :=
  ops.foldl stepFlag init

section Theorems

variable {α : Type}

/-- C1: with `undo_list = l ++ [x]`, `undo cur` yields new current state `x`,
leaves `undo_list = l` (one element fewer, rest unchanged in order), and the
old current state is the new last element of `redo_list`, whose other
elements are unchanged. -/
theorem C1_undo_nonempty (s : EditStack α) (cur : α) (l : List α) (x : α)
    (h : s.undo_list = l ++ [x]) :
    (s.undo cur).2 = x ∧
    (s.undo cur).1.undo_list = l ∧
    (s.undo cur).1.redo_list = s.redo_list ++ [cur] := by
  simp [EditStack.undo, h]

/-- C1 witness: scenario `undo_list=[1,2]`, `redo_list=[]`, `cur=3`. -/
theorem C1_witness :
    ((⟨[1, 2], []⟩ : EditStack ℕ).undo 3).2 = 2 ∧
    ((⟨[1, 2], []⟩ : EditStack ℕ).undo 3).1.undo_list = [1] ∧
    ((⟨[1, 2], []⟩ : EditStack ℕ).undo 3).1.redo_list = [] ++ [3] :=
  C1_undo_nonempty ⟨[1, 2], []⟩ 3 [1] 2 rfl

/-- C2: when `undo_list` is non-empty, `undo` followed by `redo` restores the
current state and both sequences exactly. -/
theorem C2_undo_redo_roundtrip (s : EditStack α) (cur : α)
    (h : s.undo_list ≠ []) :
    (s.undo cur).1.redo (s.undo cur).2 = (s, cur) := by
  rcases (List.eq_nil_or_concat' s.undo_list) with h0 | ⟨l, x, hl⟩
  · exact absurd h0 h
  · cases s with
    | mk u r => simp_all [EditStack.undo, EditStack.redo]

/-- C2 witness: `undo_list=[1,2]`, `redo_list=[5]`, `cur=3`. -/
theorem C2_witness :
    (([1, 2] : List ℕ) ≠ []) ∧
    ((⟨[1, 2], [5]⟩ : EditStack ℕ).undo 3).1.redo
      ((⟨[1, 2], [5]⟩ : EditStack ℕ).undo 3).2 = (⟨[1, 2], [5]⟩, 3) :=
  ⟨by decide, C2_undo_redo_roundtrip ⟨[1, 2], [5]⟩ 3 (by decide)⟩

/-- C3: after `insert v`, `redo_list` is empty and `undo_list` is the old
`undo_list` with `v` appended at the back. -/
theorem C3_insert_spec (s : EditStack α) (v : α) :
    (s.insert v).redo_list = [] ∧
    (s.insert v).undo_list = s.undo_list ++ [v] :=
  ⟨rfl, rfl⟩

/-- C4: with `redo_list = l ++ [x]`, `redo cur` yields new current state `x`,
leaves `redo_list = l` (one element fewer, rest unchanged in order), and the
old current state is the new last element of `undo_list`, whose other
elements are unchanged. -/
theorem C4_redo_nonempty (s : EditStack α) (cur : α) (l : List α) (x : α)
    (h : s.redo_list = l ++ [x]) :
    (s.redo cur).2 = x ∧
    (s.redo cur).1.redo_list = l ∧
    (s.redo cur).1.undo_list = s.undo_list ++ [cur] := by
  simp [EditStack.redo, h]

/-- C4 witness: scenario `undo_list=[1]`, `redo_list=[3]`, `cur=2`. -/
theorem C4_witness :
    ((⟨[1], [3]⟩ : EditStack ℕ).redo 2).2 = 3 ∧
    ((⟨[1], [3]⟩ : EditStack ℕ).redo 2).1.redo_list = [] ∧
    ((⟨[1], [3]⟩ : EditStack ℕ).redo 2).1.undo_list = [1] ++ [2] :=
  C4_redo_nonempty ⟨[1], [3]⟩ 2 [] 3 rfl

/-- C5: with empty `undo_list`, `undo` is a no-op: the container and the
current state are returned unchanged. -/
theorem C5_undo_empty_noop (s : EditStack α) (cur : α)
    (h : s.undo_list = []) :
    s.undo cur = (s, cur) := by
  simp [EditStack.undo, h]

/-- C5 witness: `undo_list=[]`, `redo_list=[7]`, `cur=1`. -/
theorem C5_witness :
    ((⟨[], [7]⟩ : EditStack ℕ).undo_list = []) ∧
    (⟨[], [7]⟩ : EditStack ℕ).undo 1 = (⟨[], [7]⟩, 1) :=
  ⟨rfl, C5_undo_empty_noop ⟨[], [7]⟩ 1 rfl⟩

/-- C6: with empty `redo_list`, `redo` is a no-op: the container and the
current state are returned unchanged. -/
theorem C6_redo_empty_noop (s : EditStack α) (cur : α)
    (h : s.redo_list = []) :
    s.redo cur = (s, cur) := by
  simp [EditStack.redo, h]

/-- C6 witness: `undo_list=[7]`, `redo_list=[]`, `cur=1`. -/
theorem C6_witness :
    ((⟨[7], []⟩ : EditStack ℕ).redo_list = []) ∧
    (⟨[7], []⟩ : EditStack ℕ).redo 1 = (⟨[7], []⟩, 1) :=
  ⟨rfl, C6_redo_empty_noop ⟨[7], []⟩ 1 rfl⟩

/-- Invariant preserved by every step: if `redo_list` is non-empty then an
effective undo has occurred since the last barrier (ghost flag is true). -/
theorem stepFlag_preserves (st : EditStack α × α × Bool) (op : Op α)
    (ih : st.1.redo_list ≠ [] → st.2.2 = true) :
    (stepFlag st op).1.redo_list ≠ [] → (stepFlag st op).2.2 = true := by
  obtain ⟨s, cur, flag⟩ := st
  cases op with
  | undo =>
      rcases (List.eq_nil_or_concat' s.undo_list) with h0 | ⟨l, x, hl⟩
      · simpa [stepFlag, EditStack.undo, h0, List.isEmpty_iff] using ih
      · simp [stepFlag, EditStack.undo, hl, List.isEmpty_iff]
  | redo =>
      rcases (List.eq_nil_or_concat' s.redo_list) with h0 | ⟨l, x, hl⟩
      · simp [stepFlag, EditStack.redo, h0]
      · intro hne
        apply ih
        simp [hl]
  | insert v => simp [stepFlag, EditStack.insert]
  | reset => simp [stepFlag, EditStack.reset]

/-- Running any operation list preserves the invariant. -/
theorem runFlag_preserves (ops : List (Op α)) (init : EditStack α × α × Bool)
    (h : init.1.redo_list ≠ [] → init.2.2 = true) :
    (runFlag init ops).1.redo_list ≠ [] → (runFlag init ops).2.2 = true := by
  induction ops generalizing init with
  | nil => exact h
  | cons op rest ih =>
      exact ih (stepFlag init op) (stepFlag_preserves init op h)

/-- C7: in every state reachable from the freshly-constructed container by
any sequence of `undo`/`redo`/`insert`/`reset` calls, `redo_list` is
non-empty only if an undo that actually popped an element has occurred since
the most recent `insert` or `reset` (or since construction), as recorded by
the ghost flag of the instrumented run. -/
theorem C7_redo_requires_effective_undo (ops : List (Op α)) (cur : α)
    (h : (runFlag (EditStack.new, cur, false) ops).1.redo_list ≠ []) :
    (runFlag (EditStack.new, cur, false) ops).2.2 = true :=
  runFlag_preserves ops (EditStack.new, cur, false)
    (by simp [EditStack.new]) h

/-- C7 witness: `insert 1` then `undo` from the fresh container with
current state `2` leaves `redo_list = [2]` and the flag set. -/
theorem C7_witness :
    (runFlag ((EditStack.new : EditStack ℕ), 2, false)
        [Op.insert 1, Op.undo]).1.redo_list ≠ [] ∧
    (runFlag ((EditStack.new : EditStack ℕ), 2, false)
        [Op.insert 1, Op.undo]).2.2 = true :=
  ⟨by decide, C7_redo_requires_effective_undo [Op.insert 1, Op.undo] 2
    (by decide)⟩

/-- C8: `reset` empties both sequences, yielding exactly the
freshly-constructed container. -/
theorem C8_reset_eq_new (s : EditStack α) :
    s.reset = EditStack.new ∧ s.reset.undo_list = [] ∧
    s.reset.redo_list = [] :=
  ⟨rfl, rfl, rfl⟩

/-- C9: every operation is total and has no failure outcome: on every input,
`undo` and `redo` either leave everything unchanged (empty-history no-op) or
perform the specified exchange, and `insert` and `reset` always produce a
result; no case is an error. -/
theorem C9_operations_total (s : EditStack α) (cur : α) :
    (s.undo cur = (s, cur) ∨ ∃ l x, s.undo_list = l ++ [x] ∧
      s.undo cur = ({ undo_list := l, redo_list := s.redo_list ++ [cur] }, x)) ∧
    (s.redo cur = (s, cur) ∨ ∃ l x, s.redo_list = l ++ [x] ∧
      s.redo cur = ({ undo_list := s.undo_list ++ [cur], redo_list := l }, x)) ∧
    (∃ t, s.insert cur = t) ∧ (∃ t, s.reset = t) := by
  refine ⟨?_, ?_, ⟨_, rfl⟩, ⟨_, rfl⟩⟩
  · rcases List.eq_nil_or_concat' s.undo_list with h0 | ⟨l, x, hl⟩
    · left; simp [EditStack.undo, h0]
    · right; exact ⟨l, x, hl, by simp [EditStack.undo, hl]⟩
  · rcases List.eq_nil_or_concat' s.redo_list with h0 | ⟨l, x, hl⟩
    · left; simp [EditStack.redo, h0]
    · right; exact ⟨l, x, hl, by simp [EditStack.redo, hl]⟩

/-- C10: `undo` and `redo` conserve the total number of stored elements:
the sum of the two list lengths is unchanged by either call. -/
theorem C10_undo_redo_conserve_length (s : EditStack α) (cur : α) :
    (s.undo cur).1.undo_list.length + (s.undo cur).1.redo_list.length
      = s.undo_list.length + s.redo_list.length ∧
    (s.redo cur).1.undo_list.length + (s.redo cur).1.redo_list.length
      = s.undo_list.length + s.redo_list.length := by
  constructor
  · rcases List.eq_nil_or_concat' s.undo_list with h0 | ⟨l, x, hl⟩
    · simp [EditStack.undo, h0]
    · simp [EditStack.undo, hl]
      omega
  · rcases List.eq_nil_or_concat' s.redo_list with h0 | ⟨l, x, hl⟩
    · simp [EditStack.redo, h0]
    · simp [EditStack.redo, hl]
      omega

end Theorems
